import Mathlib

/-!
Verification development for the novelbin downloader.

Shallow embedding of the concurrent fetch-cache-retry pipeline:
`AsyncScraper._fetch_url` (src/scraper.py), the on-disk cache backing
`AsyncScraper.fetch_chapter_content` / `AsyncScraper.clear_cache_for_url`
(src/scraper.py), and the batch partition / completion-gating / eviction
logic of `download_workflow` (src/main.py).

External collaborators (the HTTP client `curl_cffi`, BeautifulSoup
selector extraction, the epub packager) are modelled as oracles supplied
as parameters: a per-attempt outcome classifier for the network, an
`extract` function for the DOM selector, and a success flag for the
packager.  The md5 cache key of `_get_cache_path` is a deterministic
injective renaming of the URL, so the cache is keyed by the URL itself.
-/

/-! ### Configuration constants, from src/config.py -/

def MAX_CONCURRENT_REQUESTS : Nat := 5

def MAX_RETRIES : Nat := 3

def RETRY_DELAY : Nat := 2

/-! ### Fetch outcomes and the retry loop of `AsyncScraper._fetch_url`

One network attempt is classified as in the spec's FetchOutcome variant:
HTTP 429 is `rateLimited`; `RequestsError` / `asyncio.TimeoutError`
(including `raise_for_status` on non-2xx) is `transientError`; any other
exception is `fatalError`.  The classification itself is performed by the
HTTP library, so the client is an oracle `Nat → Outcome` giving the
outcome of each (0-based) attempt.
-/

inductive Outcome where
  | success (body : String)
  | rateLimited
  | transientError
  | fatalError
deriving DecidableEq, Repr

/-- Observable events of `_fetch_url`: semaphore acquisition/release,
the `session.get` network call, and `asyncio.sleep` with its duration
and whether the semaphore permit is held while sleeping. -/
inductive Ev where
  | acquire
  | netCall
  | sleepEv (ms : Nat) (permitHeld : Bool)
  | release
deriving DecidableEq, Repr

/-- The retry loop body of `AsyncScraper._fetch_url` (src/scraper.py lines
37-64), with fuel = remaining iterations of `for attempt in range(MAX_RETRIES)`.
Per iteration: enter `async with self.semaphore` (acquire), `session.get`
(netCall), then
  * status 429: `await asyncio.sleep(RETRY_DELAY * (attempt + 1))` runs
    inside the `with` block, so the permit is held during this sleep; the
    `continue` then exits the block (release);
  * success: `return response.text` exits the block (release);
  * `RequestsError`/timeout: the exception exits the `with` block (release)
    before the handler sleeps `RETRY_DELAY` without the permit;
  * any other exception: release, `return None` with no sleep.
After the loop, `return None`. -/
def fetchUrlGo (client : Nat → Outcome) (d : Nat) : Nat → Nat → Option String × List Ev
  | 0, _ => (none, [])
  | remaining + 1, attempt =>
    match client attempt with
    | Outcome.success body => (some body, [Ev.acquire, Ev.netCall, Ev.release])
    | Outcome.rateLimited =>
      let p := fetchUrlGo client d remaining (attempt + 1)
      (p.1, Ev.acquire :: Ev.netCall :: Ev.sleepEv (d * (attempt + 1)) true :: Ev.release :: p.2)
    | Outcome.transientError =>
      let p := fetchUrlGo client d remaining (attempt + 1)
      (p.1, Ev.acquire :: Ev.netCall :: Ev.release :: Ev.sleepEv d false :: p.2)
    | Outcome.fatalError => (none, [Ev.acquire, Ev.netCall, Ev.release])

/-- `AsyncScraper._fetch_url`: run the retry loop from attempt 0 with
`maxRetries` iterations of fuel, returning the body (or `none`) and the
event trace. -/
def fetchUrl (client : Nat → Outcome) (maxRetries d : Nat) : Option String × List Ev :=
  fetchUrlGo client d maxRetries 0

/-- Number of `session.get` network calls in a trace. -/
def netCalls (evs : List Ev) : Nat :=
  evs.countP (fun e => decide (e = Ev.netCall))

/-- The sleeps of a trace, in order, as (duration, permit-held) pairs. -/
def sleepsOf (evs : List Ev) : List (Nat × Bool) :=
  evs.filterMap (fun e =>
    match e with
    | Ev.sleepEv ms held => some (ms, held)
    | _ => none)

/-- Whether the event is a sleep performed while holding the semaphore
permit. -/
def sleepHoldsPermit : Ev → Bool
  | Ev.sleepEv _ held => held
  | _ => false

/-! ### The on-disk cache of `AsyncScraper`

The cache directory holds one file per URL, named by the md5 hash of the
URL (`_get_cache_path`); the hash is a deterministic injective key, so the
store is modelled as an association list keyed by the URL itself. -/

abbrev Cache := List (String × String)

/-- Read the cache entry for a URL, if present. -/
def Cache.get (c : Cache) (url : String) : Option String :=
  match c with
  | [] => none
  | (u, v) :: rest => if u = url then some v else Cache.get rest url

/-- Remove every entry stored under a URL (deleting the file named by the
URL's hash). -/
def Cache.erase (c : Cache) (url : String) : Cache :=
  match c with
  | [] => []
  | (u, v) :: rest =>
    if u = url then Cache.erase rest url else (u, v) :: Cache.erase rest url

/-- Write a cache entry: `open(cache_path, "w")` truncates and rewrites
the file, so the old entry for the same URL is replaced (last write wins). -/
def Cache.put (c : Cache) (url content : String) : Cache :=
  (url, content) :: Cache.erase c url

/-- `AsyncScraper.clear_cache_for_url` (src/scraper.py lines 27-31):
unlink the cached file if it exists, no-op otherwise. -/
def clear_cache_for_url (c : Cache) (url : String) : Cache :=
  Cache.erase c url

theorem Cache.get_put_same (c : Cache) (url content : String) :
    Cache.get (Cache.put c url content) url = some content := by
  simp [Cache.put, Cache.get]

theorem Cache.get_erase_ne (c : Cache) (url w : String) (hw : w ≠ url) :
    Cache.get (Cache.erase c url) w = Cache.get c w := by
  induction c with
  | nil => rfl
  | cons x rest ih =>
    obtain ⟨u, v⟩ := x
    by_cases hu : u = url
    · subst hu
      have huw : ¬ u = w := fun h => hw h.symm
      simp [Cache.erase, Cache.get, huw, ih]
    · by_cases huw : u = w
      · simp [Cache.erase, Cache.get, hu, huw, hw]
      · simp [Cache.erase, Cache.get, hu, huw, ih]

/-! ### `AsyncScraper.fetch_chapter_content` (src/scraper.py lines 171-210)

Fast path: if the cached file exists, read and return it (no network call,
no semaphore permit — permits are only acquired inside `_fetch_url`, and
the trace of events is empty).  Slow path: `_fetch_url`; Python's
`if not html` treats both `None` and the empty string as failure; then the
BeautifulSoup selector extraction (an external collaborator, modelled as
the oracle `extract`; `none` means the content selector matched nothing);
on success the extracted fragment is written to the cache and returned. -/

structure FetchChapterResult where
  content : Option String
  cache : Cache
  fetches : Nat
  events : List Ev
deriving DecidableEq, Repr

def fetch_chapter_content (extract : String → Option String) (client : Nat → Outcome)
    (cache : Cache) (url : String) : FetchChapterResult :=
  match Cache.get cache url with
  | some cached => ⟨some cached, cache, 0, []⟩
  | none =>
    let f := fetchUrl client MAX_RETRIES RETRY_DELAY
    match f.1 with
    | none => ⟨none, cache, 1, f.2⟩
    | some html =>
      if html = "" then ⟨none, cache, 1, f.2⟩
      else
        match extract html with
        | some clean => ⟨some clean, Cache.put cache url clean, 1, f.2⟩
        | none => ⟨none, cache, 1, f.2⟩

/-! ### The batch partition and completion gating of `download_workflow`
(src/main.py lines 40-97) -/

structure ChapterRef where
  name : String
  url : String
deriving DecidableEq, Repr

/-- An element of `downloaded_data`: `{"title": ch["name"], "content": content}`. -/
structure Downloaded where
  title : String
  content : String
deriving DecidableEq, Repr

/-- The partition loop of `download_workflow` (src/main.py lines 60-69):
walk the `asyncio.gather` results in input order (gather aligns results
with the task list regardless of completion order); a `None` result puts
the chapter's name into `failed_chapters`, otherwise the record joins
`downloaded_data`. -/
def splitResults : List (ChapterRef × Option String) → List Downloaded × List String
  | [] => ([], [])
  | (ch, r) :: rest =>
    let pr := splitResults rest
    match r with
    | none => (pr.1, ch.name :: pr.2)
    | some c => (⟨ch.name, c⟩ :: pr.1, pr.2)

inductive BatchOutcome where
  | halted (missingPreview : List String)
  | completed
  | packagingFailed
deriving DecidableEq, Repr

/-- Steps 3-5 of `download_workflow` (src/main.py lines 60-97), after the
gather produced the input-aligned `results`.  If `failed_chapters` is
nonempty the batch halts, previewing `failed_chapters[:5]`, and no
packaging happens (third component `none`).  Otherwise `create_epub` is
invoked with the ordered `downloaded_data` (third component `some ...`);
the external packager either succeeds (`epubOk = true`), after which
`clear_cache_for_url` runs for every selected chapter, or raises
(`epubOk = false`), which is caught and leaves the cache untouched. -/
def download_workflow_post (selected : List ChapterRef) (results : List (Option String))
    (cache : Cache) (epubOk : Bool) : BatchOutcome × Cache × Option (List Downloaded) :=
  match (splitResults (selected.zip results)).2 with
  | _ :: _ =>
    (BatchOutcome.halted ((splitResults (selected.zip results)).2.take 5), cache, none)
  | [] =>
    if epubOk then
      (BatchOutcome.completed,
        (selected.map (fun c => c.url)).foldl clear_cache_for_url cache,
        some (splitResults (selected.zip results)).1)
    else
      (BatchOutcome.packagingFailed, cache, some (splitResults (selected.zip results)).1)

/-! ### The cache read of `fetch_chapter_content` with I/O failure

`fetch_chapter_content` guards the read with `cache_path.exists()` only:
an absent entry is a miss and the network path runs; but if the file
exists and `aiofiles.open(...).read()` raises (unreadable/corrupt
storage), there is no surrounding `try`, so the exception propagates to
the caller (and through `asyncio.gather` aborts the batch). -/

inductive CacheReadResult where
  | absent
  | readable (s : String)
  | unreadable
deriving DecidableEq, Repr

inductive CacheErr where
  | readFailed
deriving DecidableEq, Repr

def isOk {ε α : Type} : Except ε α → Bool
  | Except.ok _ => true
  | Except.error _ => false

/-- The read portion of `fetch_chapter_content` with the state of the
cached file made explicit, followed by the network/extract path; the
`Bool` records whether a network fetch was attempted. -/
def fetchChapterRead (entry : CacheReadResult) (net : Option String)
    (extract : String → Option String) : Except CacheErr (Option String × Bool) :=
  match entry with
  | CacheReadResult.readable s => Except.ok (some s, false)
  | CacheReadResult.unreadable => Except.error CacheErr.readFailed
  | CacheReadResult.absent =>
    match net with
    | none => Except.ok (none, true)
    | some html =>
      if html = "" then Except.ok (none, true) else Except.ok (extract html, true)

/-! ### Observable intermediate states of a cache write

The cache write in `fetch_chapter_content` (src/scraper.py lines 202-208)
is `async with aiofiles.open(cache_path, "w") as f: await f.write(...)` —
a direct write to the final path, with no temporary file and no atomic
rename.  A reader (or a process that terminates abruptly mid-write) can
therefore observe the file holding any leading portion of the content.
`writeStates` enumerates the cache states in which the file at the URL's
path holds the first `k` characters, `k = 0 .. length`. -/

def strTake (s : String) (k : Nat) : String := String.mk (s.data.take k)

def writeStates (cache : Cache) (url content : String) : List Cache :=
  (List.range (content.data.length + 1)).map (fun k => Cache.put cache url (strTake content k))

/-! ### The semaphore discipline of `_fetch_url`

`AsyncScraper.__init__` creates `asyncio.Semaphore(MAX_CONCURRENT_REQUESTS)`
and every `session.get` in `_fetch_url` runs inside
`async with self.semaphore`.  The cooperative scheduling of the fetch
tasks is a step relation on the vector of task phases: a waiting task may
enter the `with` block (start its fetch) only when fewer than `N` tasks
are inside; a task inside may finish and release.  `Reaches N M` is the
set of states reachable from a batch of `M` tasks all waiting. -/

inductive Phase where
  | waiting
  | inFlight
  | done
deriving DecidableEq, Repr

def Phase.isInFlight : Phase → Bool
  | Phase.inFlight => true
  | _ => false

/-- Number of tasks whose `session.get` is currently in flight. -/
def inFlightCount (ts : List Phase) : Nat :=
  ts.countP Phase.isInFlight

inductive SemStep (N : Nat) : List Phase → List Phase → Prop where
  | start (ts : List Phase) (i : Nat) (hi : ts.get? i = some Phase.waiting)
      (hcap : inFlightCount ts < N) : SemStep N ts (ts.set i Phase.inFlight)
  | finish (ts : List Phase) (i : Nat) (hi : ts.get? i = some Phase.inFlight) :
      SemStep N ts (ts.set i Phase.done)

abbrev Reaches (N M : Nat) (ts : List Phase) : Prop :=
  Relation.ReflTransGen (SemStep N) (List.replicate M Phase.waiting) ts

/-! ### C4: the partition of a batch into succeeded and failed -/

/-- C4. For every input batch, the succeeded and failed lists produced by
the partition loop of `download_workflow` are an order-preserving,
position-wise disjoint and exhaustive partition of the input: their
lengths sum to the input length, the succeeded list is exactly the
`{title, content}` records of the inputs whose result is present, in
input order, and the failed list is exactly the names of the inputs whose
result is absent, in input order (the `asyncio.gather` results are aligned
with the input task list, so this holds regardless of task completion
order). -/
theorem C4_partition (l : List (ChapterRef × Option String)) :
    (splitResults l).1.length + (splitResults l).2.length = l.length ∧
    (splitResults l).1
      = l.filterMap (fun p => p.2.map (fun c => Downloaded.mk p.1.name c)) ∧
    (splitResults l).2
      = (l.filter (fun p => p.2.isNone)).map (fun p => p.1.name) := by
  induction l with
  | nil => exact ⟨rfl, rfl, rfl⟩
  | cons x rest ih =>
    obtain ⟨ch, r⟩ := x
    cases r with
    | none =>
      refine ⟨?_, ?_, ?_⟩
      · simp only [splitResults]
        simp [ih.1]
        omega
      · simpa [splitResults, List.filterMap_cons] using ih.2.1
      · simpa [splitResults, List.filter_cons] using ih.2.2
    | some c =>
      refine ⟨?_, ?_, ?_⟩
      · simp only [splitResults]
        simp [ih.1]
        omega
      · simpa [splitResults, List.filterMap_cons] using ih.2.1
      · simpa [splitResults, List.filter_cons] using ih.2.2

/-! ### C5: the retry budget of `_fetch_url` -/

theorem fetchUrlGo_none_of_no_success (client : Nat → Outcome) (d : Nat) :
    ∀ (remaining attempt : Nat),
      (∀ i b, attempt ≤ i → i < attempt + remaining → client i ≠ Outcome.success b) →
      (fetchUrlGo client d remaining attempt).1 = none := by
  intro remaining
  induction remaining with
  | zero => intro attempt h; rfl
  | succ r ih =>
    intro attempt h
    cases hc : client attempt with
    | success body =>
      exact absurd hc (h attempt body (Nat.le_refl _) (by omega))
    | rateLimited =>
      simp only [fetchUrlGo, hc]
      exact ih (attempt + 1) (fun i b h1 h2 => h i b (by omega) (by omega))
    | transientError =>
      simp only [fetchUrlGo, hc]
      exact ih (attempt + 1) (fun i b h1 h2 => h i b (by omega) (by omega))
    | fatalError =>
      simp only [fetchUrlGo, hc]

/-- C5. With the configured `MAX_RETRIES = 3` and a client whose every
attempt yields `transientError`, `_fetch_url` makes exactly 3 network
calls and returns `none`; in general, whenever no attempt inside the
retry budget is a success, `_fetch_url` returns `none` (the loop ends in
`return None`, never a raised exception). -/
theorem C5_retry_budget (client : Nat → Outcome) (maxRetries d : Nat)
    (h : ∀ i b, i < maxRetries → client i ≠ Outcome.success b) :
    (fetchUrl client maxRetries d).1 = none ∧
    (netCalls (fetchUrl (fun _ => Outcome.transientError) MAX_RETRIES RETRY_DELAY).2 = 3 ∧
      (fetchUrl (fun _ => Outcome.transientError) MAX_RETRIES RETRY_DELAY).1 = none) := by
  refine ⟨?_, by decide, by decide⟩
  exact fetchUrlGo_none_of_no_success client d maxRetries 0
    (fun i b h1 h2 => h i b (by omega))

/-- Witness for C5 at the spec's concrete scenario: the always-transient
client with the configured retry budget. -/
theorem C5_retry_budget_witness :
    (fetchUrl (fun _ => Outcome.transientError) MAX_RETRIES RETRY_DELAY).1 = none ∧
    netCalls (fetchUrl (fun _ => Outcome.transientError) MAX_RETRIES RETRY_DELAY).2 = 3 :=
  have h := C5_retry_budget (fun _ => Outcome.transientError) MAX_RETRIES RETRY_DELAY
    (fun _ _ _ hb => Outcome.noConfusion hb)
  ⟨h.1, h.2.1⟩

/-! ### C6: rate-limit backoff and the permit during backoff sleeps -/

/-- Counterexample to C6 as stated.  The claim says no permit is held
during a backoff sleep, but in `_fetch_url` the rate-limit sleep
`await asyncio.sleep(RETRY_DELAY * (attempt + 1))` executes inside the
`async with self.semaphore` block: with a client whose every attempt is
rate-limited, the trace contains a sleep performed while holding the
permit. -/
theorem C6_counterexample :
    ((fetchUrl (fun _ => Outcome.rateLimited) MAX_RETRIES RETRY_DELAY).2.all
      (fun e => !sleepHoldsPermit e)) = false := by
  decide

/-- The spec's rate-limit scenario client: rate-limited on the first two
attempts, success on the third. -/
def rlScenarioClient : Nat → Outcome :=
  fun i => if i < 2 then Outcome.rateLimited else Outcome.success "body"

/-- The durations of the permit-holding (rate-limit) sleeps of a trace,
in trace order. -/
def rlSleepDurations (evs : List Ev) : List Nat :=
  ((sleepsOf evs).filter (fun p => p.2)).map Prod.fst

/-- If the retry loop reaches attempt `i` (every earlier attempt was
rate-limited or transient) and attempt `i` is rate-limited, the trace
contains the sleep of duration `d * (i + 1)` taken while holding the
permit. -/
theorem fetchUrlGo_mem_sleep_rl (client : Nat → Outcome) (d : Nat) :
    ∀ (remaining attempt i : Nat),
      attempt ≤ i → i < attempt + remaining →
      (∀ j, attempt ≤ j → j < i →
        client j = Outcome.rateLimited ∨ client j = Outcome.transientError) →
      client i = Outcome.rateLimited →
      Ev.sleepEv (d * (i + 1)) true ∈ (fetchUrlGo client d remaining attempt).2 := by
  intro remaining
  induction remaining with
  | zero =>
    intro attempt i h1 h2 _ _
    exact absurd h2 (by omega)
  | succ r ih =>
    intro attempt i h1 h2 hprev hi
    by_cases hia : i = attempt
    · subst hia
      simp [fetchUrlGo, hi]
    · have hmem := ih (attempt + 1) i (by omega) (by omega)
        (fun j hj1 hj2 => hprev j (by omega) hj2) hi
      rcases hprev attempt (Nat.le_refl _) (by omega) with hc | hc
      · simp [fetchUrlGo, hc, List.mem_cons, hmem]
      · simp [fetchUrlGo, hc, List.mem_cons, hmem]

/-- If the retry loop reaches attempt `i` and attempt `i` is a transient
error, the trace contains the flat sleep of duration `d` taken without
the permit. -/
theorem fetchUrlGo_mem_sleep_transient (client : Nat → Outcome) (d : Nat) :
    ∀ (remaining attempt i : Nat),
      attempt ≤ i → i < attempt + remaining →
      (∀ j, attempt ≤ j → j < i →
        client j = Outcome.rateLimited ∨ client j = Outcome.transientError) →
      client i = Outcome.transientError →
      Ev.sleepEv d false ∈ (fetchUrlGo client d remaining attempt).2 := by
  intro remaining
  induction remaining with
  | zero =>
    intro attempt i h1 h2 _ _
    exact absurd h2 (by omega)
  | succ r ih =>
    intro attempt i h1 h2 hprev hi
    by_cases hia : i = attempt
    · subst hia
      simp [fetchUrlGo, hi]
    · have hmem := ih (attempt + 1) i (by omega) (by omega)
        (fun j hj1 hj2 => hprev j (by omega) hj2) hi
      rcases hprev attempt (Nat.le_refl _) (by omega) with hc | hc
      · simp [fetchUrlGo, hc, List.mem_cons, hmem]
      · simp [fetchUrlGo, hc, List.mem_cons, hmem]

/-- Every sleep event of a retry-loop trace is accounted for: a sleep
taken with the permit held is the linear rate-limit backoff
`d * (k + 1)` of some rate-limited attempt `k`, and a sleep taken
without the permit is the flat transient-error delay `d`. -/
theorem fetchUrlGo_sleep_classify (client : Nat → Outcome) (d : Nat) :
    ∀ (remaining attempt ms : Nat) (held : Bool),
      Ev.sleepEv ms held ∈ (fetchUrlGo client d remaining attempt).2 →
      (held = true → ∃ k, attempt ≤ k ∧ k < attempt + remaining ∧
        client k = Outcome.rateLimited ∧ ms = d * (k + 1)) ∧
      (held = false → ms = d) := by
  intro remaining
  induction remaining with
  | zero =>
    intro attempt ms held h
    exact absurd h (by simp [fetchUrlGo])
  | succ r ih =>
    intro attempt ms held h
    cases hc : client attempt with
    | success body => simp [fetchUrlGo, hc] at h
    | fatalError => simp [fetchUrlGo, hc] at h
    | rateLimited =>
      simp [fetchUrlGo, hc, List.mem_cons] at h
      rcases h with ⟨hms, hheld⟩ | h
      · subst hheld
        refine ⟨fun _ => ⟨attempt, Nat.le_refl _, by omega, hc, hms⟩, ?_⟩
        intro hfalse
        exact Bool.noConfusion hfalse
      · have h2 := ih (attempt + 1) ms held h
        refine ⟨fun ht => ?_, h2.2⟩
        rcases h2.1 ht with ⟨k, hk1, hk2, hk3, hk4⟩
        exact ⟨k, by omega, by omega, hk3, hk4⟩
    | transientError =>
      simp [fetchUrlGo, hc, List.mem_cons] at h
      rcases h with ⟨hms, hheld⟩ | h
      · subst hheld
        exact ⟨fun ht => Bool.noConfusion ht, fun _ => hms⟩
      · have h2 := ih (attempt + 1) ms held h
        refine ⟨fun ht => ?_, h2.2⟩
        rcases h2.1 ht with ⟨k, hk1, hk2, hk3, hk4⟩
        exact ⟨k, by omega, by omega, hk3, hk4⟩

/-- The permit-holding (rate-limit) sleep durations of a retry-loop
trace are bounded below by the current attempt's backoff and strictly
increase along the trace. -/
theorem fetchUrlGo_rl_durations (client : Nat → Outcome) (d : Nat) (hd : 0 < d) :
    ∀ (remaining attempt : Nat),
      (∀ x ∈ rlSleepDurations (fetchUrlGo client d remaining attempt).2,
        d * (attempt + 1) ≤ x) ∧
      List.Chain' (fun a b => a < b)
        (rlSleepDurations (fetchUrlGo client d remaining attempt).2) := by
  intro remaining
  induction remaining with
  | zero =>
    intro attempt
    refine ⟨fun x hx => absurd hx (by simp [fetchUrlGo, rlSleepDurations, sleepsOf]), ?_⟩
    simp [fetchUrlGo, rlSleepDurations, sleepsOf]
  | succ r ih =>
    intro attempt
    have hstep : d * (attempt + 1 + 1) = d * (attempt + 1) + d := Nat.mul_succ d (attempt + 1)
    cases hc : client attempt with
    | success body =>
      refine ⟨fun x hx => absurd hx (by simp [fetchUrlGo, hc, rlSleepDurations, sleepsOf]), ?_⟩
      simp [fetchUrlGo, hc, rlSleepDurations, sleepsOf]
    | fatalError =>
      refine ⟨fun x hx => absurd hx (by simp [fetchUrlGo, hc, rlSleepDurations, sleepsOf]), ?_⟩
      simp [fetchUrlGo, hc, rlSleepDurations, sleepsOf]
    | rateLimited =>
      have heq : rlSleepDurations (fetchUrlGo client d (r + 1) attempt).2
          = d * (attempt + 1) :: rlSleepDurations (fetchUrlGo client d r (attempt + 1)).2 := by
        simp [fetchUrlGo, hc, rlSleepDurations, sleepsOf]
      have hrec := ih (attempt + 1)
      rw [heq]
      refine ⟨?_, ?_⟩
      · intro x hx
        rcases List.mem_cons.mp hx with rfl | hx2
        · exact Nat.le_refl _
        · have hb := hrec.1 x hx2
          omega
      · rw [List.chain'_cons']
        refine ⟨?_, hrec.2⟩
        intro b hb
        have hble := hrec.1 b (List.mem_of_mem_head? hb)
        omega
    | transientError =>
      have heq : rlSleepDurations (fetchUrlGo client d (r + 1) attempt).2
          = rlSleepDurations (fetchUrlGo client d r (attempt + 1)).2 := by
        simp [fetchUrlGo, hc, rlSleepDurations, sleepsOf]
      have hrec := ih (attempt + 1)
      rw [heq]
      refine ⟨?_, hrec.2⟩
      intro x hx
      have hb := hrec.1 x hx
      omega

/-- C6 amended. For every client, retry budget and base delay `d > 0`:
whenever the retry loop reaches a rate-limited attempt `i`, it sleeps
`d * (i + 1)` (linear in the 1-based attempt number) while STILL HOLDING
its concurrency permit — the permit is released only after the sleep,
when the `with` block exits; whenever it reaches a transient-error
attempt it sleeps the flat delay `d` without the permit; conversely,
every permit-holding sleep in any trace is the linear backoff of some
rate-limited attempt and every permit-free sleep has the flat duration
`d`; the permit-holding (rate-limit) sleep durations strictly increase
along every trace, so consecutive rate-limit sleeps have strictly
increasing delay.  In the spec's scenario (rate-limited on attempts 1-2,
success on attempt 3, `maxRetries = 3`) the fetcher returns the success
body and sleeps exactly twice, with strictly increasing delays, both
sleeps holding the permit. -/
theorem C6_rate_limit_backoff (client : Nat → Outcome) (maxRetries d i : Nat) (hd : 0 < d) :
    ((∀ j, j < i → client j = Outcome.rateLimited ∨ client j = Outcome.transientError) →
      i < maxRetries → client i = Outcome.rateLimited →
      Ev.sleepEv (d * (i + 1)) true ∈ (fetchUrl client maxRetries d).2) ∧
    ((∀ j, j < i → client j = Outcome.rateLimited ∨ client j = Outcome.transientError) →
      i < maxRetries → client i = Outcome.transientError →
      Ev.sleepEv d false ∈ (fetchUrl client maxRetries d).2) ∧
    (∀ ms held, Ev.sleepEv ms held ∈ (fetchUrl client maxRetries d).2 →
      (held = true →
        ∃ k, k < maxRetries ∧ client k = Outcome.rateLimited ∧ ms = d * (k + 1)) ∧
      (held = false → ms = d)) ∧
    List.Chain' (fun a b => a < b) (rlSleepDurations (fetchUrl client maxRetries d).2) ∧
    ((fetchUrl rlScenarioClient MAX_RETRIES d).1 = some "body" ∧
      sleepsOf (fetchUrl rlScenarioClient MAX_RETRIES d).2 = [(d * 1, true), (d * 2, true)] ∧
      d * 1 < d * 2) := by
  refine ⟨?_, ?_, ?_, ?_, rfl, rfl, ?_⟩
  · intro hprev hilt hirl
    exact fetchUrlGo_mem_sleep_rl client d maxRetries 0 i (Nat.zero_le i) (by omega)
      (fun j _ hj2 => hprev j hj2) hirl
  · intro hprev hilt hitr
    exact fetchUrlGo_mem_sleep_transient client d maxRetries 0 i (Nat.zero_le i) (by omega)
      (fun j _ hj2 => hprev j hj2) hitr
  · intro ms held hmem
    have h2 := fetchUrlGo_sleep_classify client d maxRetries 0 ms held hmem
    refine ⟨fun ht => ?_, h2.2⟩
    rcases h2.1 ht with ⟨k, _, hk2, hk3, hk4⟩
    exact ⟨k, by omega, hk3, hk4⟩
  · exact (fetchUrlGo_rl_durations client d hd maxRetries 0).2
  · omega

/-- A client that is rate-limited on attempt 1, transient on attempt 2
and successful on attempt 3 (0-based indices 0, 1, 2), exercising both
backoff kinds. -/
def mixedScenarioClient : Nat → Outcome :=
  fun j =>
    if j = 0 then Outcome.rateLimited
    else if j = 1 then Outcome.transientError
    else Outcome.success "body"

/-- Witness for C6 amended at the configured delay: the rate-limit sleep
of attempt 1 holds the permit, the transient sleep of attempt 2 does
not, the rate-limit sleep durations strictly increase, and the spec's
two-rate-limit scenario returns the body with two strictly increasing
permit-holding sleeps. -/
theorem C6_rate_limit_backoff_witness :
    Ev.sleepEv (RETRY_DELAY * 1) true
      ∈ (fetchUrl mixedScenarioClient MAX_RETRIES RETRY_DELAY).2 ∧
    Ev.sleepEv RETRY_DELAY false
      ∈ (fetchUrl mixedScenarioClient MAX_RETRIES RETRY_DELAY).2 ∧
    List.Chain' (fun a b => a < b)
      (rlSleepDurations (fetchUrl mixedScenarioClient MAX_RETRIES RETRY_DELAY).2) ∧
    (fetchUrl rlScenarioClient MAX_RETRIES RETRY_DELAY).1 = some "body" ∧
    sleepsOf (fetchUrl rlScenarioClient MAX_RETRIES RETRY_DELAY).2
      = [(RETRY_DELAY * 1, true), (RETRY_DELAY * 2, true)] ∧
    RETRY_DELAY * 1 < RETRY_DELAY * 2 := by
  have h0 := C6_rate_limit_backoff mixedScenarioClient MAX_RETRIES RETRY_DELAY 0 (by decide)
  have h1 := C6_rate_limit_backoff mixedScenarioClient MAX_RETRIES RETRY_DELAY 1 (by decide)
  refine ⟨?_, ?_, h0.2.2.2.1, h0.2.2.2.2.1, h0.2.2.2.2.2.1, h0.2.2.2.2.2.2⟩
  · exact h0.1 (fun j hj => absurd hj (Nat.not_lt_zero j)) (by decide) rfl
  · exact h1.2.1
      (fun j hj => by
        have hj0 : j = 0 := by omega
        subst hj0
        exact Or.inl rfl)
      (by decide) rfl

/-! ### C1: completion gating of `download_workflow` -/

/-- C1. Packaging (`create_epub`) is invoked (third component `some ...`)
iff `failed_chapters` is empty; when any chapter result is absent the
batch halts with the first five missing names previewed and no artifact
is produced; when every result is present, packaging proceeds with the
ordered `downloaded_data` list. -/
theorem C1_completion_gating (selected : List ChapterRef) (results : List (Option String))
    (cache : Cache) (epubOk : Bool) :
    ((download_workflow_post selected results cache epubOk).2.2 ≠ none ↔
      (splitResults (selected.zip results)).2 = []) ∧
    ((splitResults (selected.zip results)).2 ≠ [] →
      (download_workflow_post selected results cache epubOk)
        = (BatchOutcome.halted ((splitResults (selected.zip results)).2.take 5), cache, none) ∧
      ((splitResults (selected.zip results)).2.take 5).length ≤ 5) ∧
    ((splitResults (selected.zip results)).2 = [] →
      (download_workflow_post selected results cache epubOk).2.2
        = some (splitResults (selected.zip results)).1) := by
  rcases hf : (splitResults (selected.zip results)).2 with _ | ⟨n, rest⟩
  · cases epubOk <;> simp [download_workflow_post, hf]
  · refine ⟨by simp [download_workflow_post, hf],
      fun _ => ⟨by simp [download_workflow_post, hf], ?_⟩,
      fun hc => absurd hc (by simp [hf])⟩
    simp [hf, List.length_take]

/-- Witness for C1 at a concrete halted batch: one chapter, result absent. -/
theorem C1_completion_gating_witness :
    (download_workflow_post [⟨"ch1", "u1"⟩] [none] [] true)
      = (BatchOutcome.halted ((splitResults ([(⟨"ch1", "u1"⟩ : ChapterRef)].zip [none])).2.take 5),
          [], none) ∧
    ((splitResults ([(⟨"ch1", "u1"⟩ : ChapterRef)].zip [none])).2.take 5).length ≤ 5 :=
  (C1_completion_gating [⟨"ch1", "u1"⟩] [none] [] true).2.1 (by decide)

/-! ### C2: eviction ordering -/

/-- C2. Cache entries are cleared only on the Completed path after
`create_epub` returns successfully: after a halted outcome, or when the
packaging step raises (`epubOk = false`), the cache is exactly what it was
after the batch's fetches, so every entry used by the batch still exists;
conversely any change to the cache implies the batch completed and
packaging was invoked. -/
theorem C2_eviction_ordering (selected : List ChapterRef) (results : List (Option String))
    (cache : Cache) (epubOk : Bool) :
    (∀ names,
      (download_workflow_post selected results cache epubOk).1 = BatchOutcome.halted names →
      (download_workflow_post selected results cache epubOk).2.1 = cache) ∧
    ((download_workflow_post selected results cache epubOk).1 = BatchOutcome.packagingFailed →
      (download_workflow_post selected results cache epubOk).2.1 = cache) ∧
    ((download_workflow_post selected results cache epubOk).2.1 ≠ cache →
      (download_workflow_post selected results cache epubOk).1 = BatchOutcome.completed ∧
      (download_workflow_post selected results cache epubOk).2.2 ≠ none) := by
  rcases hf : (splitResults (selected.zip results)).2 with _ | ⟨n, rest⟩
  · cases epubOk <;> simp [download_workflow_post, hf]
  · simp [download_workflow_post, hf]

/-- Witness for C2: a halted batch leaves an unrelated pre-existing cache
entry in place. -/
theorem C2_eviction_ordering_witness :
    (download_workflow_post [⟨"ch1", "u1"⟩] [none] [("k", "v")] true).2.1 = [("k", "v")] :=
  (C2_eviction_ordering [⟨"ch1", "u1"⟩] [none] [("k", "v")] true).1
    ((splitResults ([(⟨"ch1", "u1"⟩ : ChapterRef)].zip [none])).2.take 5) (by decide)

/-! ### C3: cache idempotence of the chapter fetch -/

/-- Counterexample to C3 as stated.  When the first call's network fetch
fails definitively (here a fatal error), nothing is cached, so a second
call for the same URL — with no eviction in between — performs a second
network fetch: two fetches total, not at most one. -/
theorem C3_counterexample :
    (fetch_chapter_content (fun _ => none) (fun _ => Outcome.fatalError) [] "u").fetches
      + (fetch_chapter_content (fun _ => none) (fun _ => Outcome.fatalError)
          (fetch_chapter_content (fun _ => none) (fun _ => Outcome.fatalError) [] "u").cache
          "u").fetches = 2 ∧
    ¬ ((2 : Nat) ≤ 1) := by
  decide

/-- C3 amended. On a cache hit, `fetch_chapter_content` returns the
cached content directly, with no network fetch and an empty event trace
(so no semaphore permit is acquired and no network call is made).
Provided the first call returns content, calling twice for the same URL
without an eviction in between performs at most one network fetch: the
second call is a pure cache hit.  (If the first call fails, nothing is
cached and the second call fetches again — see the counterexample.) -/
theorem C3_fetch_idempotence (extract : String → Option String) (c1 c2 : Nat → Outcome)
    (cache : Cache) (url : String) :
    (∀ v, Cache.get cache url = some v →
      fetch_chapter_content extract c1 cache url = ⟨some v, cache, 0, []⟩) ∧
    ((fetch_chapter_content extract c1 cache url).content ≠ none →
      fetch_chapter_content extract c2 (fetch_chapter_content extract c1 cache url).cache url
        = ⟨(fetch_chapter_content extract c1 cache url).content,
            (fetch_chapter_content extract c1 cache url).cache, 0, []⟩ ∧
      (fetch_chapter_content extract c1 cache url).fetches
        + (fetch_chapter_content extract c2
            (fetch_chapter_content extract c1 cache url).cache url).fetches ≤ 1) := by
  rcases hget : Cache.get cache url with _ | v
  · refine ⟨fun v hv => Option.noConfusion hv, fun hc => ?_⟩
    rcases hf : (fetchUrl c1 MAX_RETRIES RETRY_DELAY).1 with _ | html
    · exact absurd (by simp [fetch_chapter_content, hget, hf]) hc
    · by_cases hh : html = ""
      · exact absurd (by simp [fetch_chapter_content, hget, hf, hh]) hc
      · rcases he : extract html with _ | clean
        · exact absurd (by simp [fetch_chapter_content, hget, hf, hh, he]) hc
        · have h1 : fetch_chapter_content extract c1 cache url
              = ⟨some clean, Cache.put cache url clean, 1,
                  (fetchUrl c1 MAX_RETRIES RETRY_DELAY).2⟩ := by
            simp [fetch_chapter_content, hget, hf, hh, he]
          have h2 : fetch_chapter_content extract c2 (Cache.put cache url clean) url
              = ⟨some clean, Cache.put cache url clean, 0, []⟩ := by
            simp [fetch_chapter_content, Cache.get_put_same]
          rw [h1]
          refine ⟨?_, ?_⟩
          · simpa using h2
          · simp [h2]
  · have h1 : fetch_chapter_content extract c1 cache url = ⟨some v, cache, 0, []⟩ := by
      simp [fetch_chapter_content, hget]
    have h2 : fetch_chapter_content extract c2 cache url = ⟨some v, cache, 0, []⟩ := by
      simp [fetch_chapter_content, hget]
    refine ⟨fun w hw => ?_, fun _ => ?_⟩
    · injection hw with hvw
      subst hvw
      exact h1
    · rw [h1]
      refine ⟨?_, ?_⟩
      · simpa using h2
      · simp [h2]

/-- Witness for C3 amended: a successful first fetch, then a pure cache
hit on the second call. -/
theorem C3_fetch_idempotence_witness :
    fetch_chapter_content (fun s => some s) (fun _ => Outcome.fatalError)
      (fetch_chapter_content (fun s => some s) (fun _ => Outcome.success "html") [] "u").cache "u"
      = ⟨(fetch_chapter_content (fun s => some s) (fun _ => Outcome.success "html") [] "u").content,
          (fetch_chapter_content (fun s => some s) (fun _ => Outcome.success "html") [] "u").cache,
          0, []⟩ ∧
    (fetch_chapter_content (fun s => some s) (fun _ => Outcome.success "html") [] "u").fetches
      + (fetch_chapter_content (fun s => some s) (fun _ => Outcome.fatalError)
          (fetch_chapter_content (fun s => some s) (fun _ => Outcome.success "html") [] "u").cache
          "u").fetches ≤ 1 :=
  (C3_fetch_idempotence (fun s => some s) (fun _ => Outcome.success "html")
    (fun _ => Outcome.fatalError) [] "u").2 (by decide)

/-! ### C10: failures write no cache entry -/

/-- C10. Every failure path of `fetch_chapter_content` — network failure
after all retries or a fatal error (`html` is `None`), an empty body
(`if not html`), or a content selector that matches nothing — returns
with the cache exactly as it was: no entry is written for the URL, so a
re-run re-attempts the network download for the failed URL. -/
theorem C10_failure_leaves_cache (extract : String → Option String) (client : Nat → Outcome)
    (cache : Cache) (url : String)
    (h : (fetch_chapter_content extract client cache url).content = none) :
    (fetch_chapter_content extract client cache url).cache = cache := by
  rcases hget : Cache.get cache url with _ | v
  · rcases hf : (fetchUrl client MAX_RETRIES RETRY_DELAY).1 with _ | html
    · simp [fetch_chapter_content, hget, hf]
    · by_cases hh : html = ""
      · simp [fetch_chapter_content, hget, hf, hh]
      · rcases he : extract html with _ | clean
        · simp [fetch_chapter_content, hget, hf, hh, he]
        · exact absurd h (by simp [fetch_chapter_content, hget, hf, hh, he])
  · exact absurd h (by simp [fetch_chapter_content, hget])

/-- Witness for C10: the download succeeds but the content selector
matches nothing, and the cache is untouched. -/
theorem C10_failure_leaves_cache_witness :
    (fetch_chapter_content (fun _ => none) (fun _ => Outcome.success "html") [] "u").cache
      = [] :=
  C10_failure_leaves_cache (fun _ => none) (fun _ => Outcome.success "html") [] "u" (by decide)

/-! ### C7: the cache write is not atomic -/

/-- Counterexample to C7 as stated.  The write in `fetch_chapter_content`
goes directly to the final cache path (no temporary file, no atomic
rename), so among the observable mid-write states of putting "ab" there
is one where the entry holds the truncated value "a" — neither the old
state (absent) nor the full content. -/
theorem C7_counterexample :
    ¬ ∀ s ∈ writeStates [] "u" "ab",
        Cache.get s "u" = Cache.get ([] : Cache) "u" ∨ Cache.get s "u" = some "ab" := by
  decide

theorem strTake_length (s : String) : strTake s s.data.length = s := by
  rw [strTake, List.take_length]

/-- C7 amended. The cache put of `fetch_chapter_content` writes the
content directly to the final path: the completed write (last element of
the write sequence) does leave the full content durably under the key
with last-write-wins semantics, but every intermediate state exposes a
truncated portion (`strTake content k`) of the content at the final
path, so a reader after abrupt termination mid-write can observe a
partially written entry (there is no write-to-temp-then-atomically-rename
step). -/
theorem C7_direct_write (cache : Cache) (url content : String) :
    Cache.put cache url content ∈ writeStates cache url content ∧
    ∀ s ∈ writeStates cache url content, ∃ k, Cache.get s url = some (strTake content k) := by
  constructor
  · refine List.mem_map.mpr ⟨content.data.length, List.mem_range.mpr (by omega), ?_⟩
    rw [strTake_length]
  · intro s hs
    rcases List.mem_map.mp hs with ⟨k, hk, rfl⟩
    exact ⟨k, Cache.get_put_same ..⟩

/-- Witness for C7 amended: the completed write of "ab" is an observable
state, and the truncated mid-write state holding "a" is also observable
and exposes a strict portion of the content. -/
theorem C7_direct_write_witness :
    Cache.put ([] : Cache) "u" "ab" ∈ writeStates [] "u" "ab" ∧
    ∃ k, Cache.get (Cache.put ([] : Cache) "u" "a") "u" = some (strTake "ab" k) :=
  ⟨(C7_direct_write [] "u" "ab").1,
    (C7_direct_write [] "u" "ab").2 (Cache.put [] "u" "a") (by decide)⟩

/-! ### C8: cache read errors -/

/-- Counterexample to C8 as stated.  The claim says an unreadable/corrupt
existing entry is recovered by treating it as a cache miss; but the read
in `fetch_chapter_content` has no exception handler, so the error
propagates to the caller instead of falling through to the network path. -/
theorem C8_counterexample :
    fetchChapterRead CacheReadResult.unreadable (some "html") (fun s => some s)
      = Except.error CacheErr.readFailed ∧
    isOk (fetchChapterRead CacheReadResult.unreadable (some "html") (fun s => some s))
      = false :=
  ⟨rfl, rfl⟩

/-- C8 amended. A cache read never raises for an absent entry (absence
falls through to the network fetch and the call returns normally), and a
readable entry is returned directly with no network attempt; but when the
entry exists and is unreadable/corrupt, the exception propagates to the
caller (aborting the batch) instead of being recovered as a cache miss. -/
theorem C8_read_error_handling (net : Option String) (extract : String → Option String) :
    isOk (fetchChapterRead CacheReadResult.absent net extract) = true ∧
    (∀ s, fetchChapterRead (CacheReadResult.readable s) net extract
      = Except.ok (some s, false)) ∧
    fetchChapterRead CacheReadResult.unreadable net extract
      = Except.error CacheErr.readFailed := by
  refine ⟨?_, fun s => rfl, rfl⟩
  rcases net with _ | html
  · rfl
  · by_cases hh : html = "" <;> simp [fetchChapterRead, isOk, hh]

/-! ### C9: the concurrency bound of the permit pool -/

theorem countPhase_set (p : Phase → Bool) (b : Phase) :
    ∀ (ts : List Phase) (i : Nat) (a : Phase), ts.get? i = some a →
      (ts.set i b).countP p + (if p a then 1 else 0)
        = ts.countP p + (if p b then 1 else 0) := by
  intro ts
  induction ts with
  | nil => intro i a h; cases h
  | cons x xs ih =>
    intro i a h
    cases i with
    | zero =>
      have hx : x = a := by simpa using h
      subst hx
      simp only [List.set, List.countP_cons]
      omega
    | succ j =>
      have h2 := ih j a (by simpa using h)
      simp only [List.set, List.countP_cons]
      omega

theorem inFlightCount_replicate (m : Nat) :
    inFlightCount (List.replicate m Phase.waiting) = 0 := by
  induction m with
  | zero => rfl
  | succ k ih =>
    have hc : inFlightCount (Phase.waiting :: List.replicate k Phase.waiting)
        = inFlightCount (List.replicate k Phase.waiting) := by
      simp [inFlightCount, List.countP_cons, Phase.isInFlight]
    rw [List.replicate_succ, hc, ih]

/-- C9. With the permit pool (`asyncio.Semaphore`) of size `N` guarding
every `session.get`, in every state reachable by the cooperative
scheduling of a batch of `M > N` fetch tasks, at most `N` fetches are in
flight simultaneously. -/
theorem C9_concurrency_bound (N M : Nat) (ts : List Phase) (hM : N < M)
    (h : Reaches N M ts) : inFlightCount ts ≤ N := by
  induction h with
  | refl =>
    rw [inFlightCount_replicate]
    exact Nat.zero_le N
  | tail hab hbc ih =>
    cases hbc with
    | start i hi hcap =>
      have hset := countPhase_set Phase.isInFlight Phase.inFlight _ i Phase.waiting hi
      have e1 : (if Phase.isInFlight Phase.waiting then 1 else 0) = 0 := rfl
      have e2 : (if Phase.isInFlight Phase.inFlight then 1 else 0) = 1 := rfl
      rw [e1, e2] at hset
      simp only [inFlightCount] at hcap ⊢
      omega
    | finish i hi =>
      have hset := countPhase_set Phase.isInFlight Phase.done _ i Phase.inFlight hi
      have e1 : (if Phase.isInFlight Phase.inFlight then 1 else 0) = 1 := rfl
      have e2 : (if Phase.isInFlight Phase.done then 1 else 0) = 0 := rfl
      rw [e1, e2] at hset
      simp only [inFlightCount] at ih ⊢
      omega

/-- Witness for C9: with the configured pool size 5 and a batch of 6
tasks, the state after one task starts fetching is reachable and within
the bound. -/
theorem C9_concurrency_bound_witness :
    inFlightCount ((List.replicate 6 Phase.waiting).set 0 Phase.inFlight)
      ≤ MAX_CONCURRENT_REQUESTS :=
  C9_concurrency_bound MAX_CONCURRENT_REQUESTS 6 _ (by decide)
    (Relation.ReflTransGen.single
      (SemStep.start (List.replicate 6 Phase.waiting) 0 (by decide) (by decide)))
